import Mathlib

/-!
Verification development for the LendingClubDefaultPredictor preprocessing
pipeline (notebooks `preproc_lc` and `preproc_emp_titles`).

The pipeline is shallowly embedded: a dataframe column is a list of cell
values, a dataframe is a list of named columns (for column-wise steps) or a
list of keyed rows (for the zip-code merges).  Python floats are modelled
over `ℚ`; pandas NaN/NaT is an explicit `null` value; a Python exception is
modelled by `Option`/`none` (the step produces no value).
-/

/-- A dataframe cell: `null` models pandas NaN/NaT, `num` a numeric entry
(modelled over `ℚ`), `str` a string entry, and `date` a pandas `Timestamp`
at day resolution, given by its civil calendar year, month and day. -/
inductive Val where
  | null : Val
  | num (q : ℚ) : Val
  | str (s : String) : Val
  | date (y m d : ℕ) : Val
  deriving DecidableEq

/-- Per-grade computation of `letterSubGradesToNumeric`, from the source:
`num = (ord(grade[0]) - 65)*5 + int(grade[1])` and the replacement value is
`36 - num`.  Python indexes the grade string by character; `grade[0]`,
`grade[1]` raise `IndexError` on strings shorter than two characters and
`int(grade[1])` raises `ValueError` on a non-digit character, both modelled
by `none`. -/
def subGradeScore (grade : String) : Option ℤ :=
  match grade.data with
  | c0 :: c1 :: _ =>
    if c1.isDigit then
      some (36 - (((c0.toNat : ℤ) - 65) * 5 + ((c1.toNat : ℤ) - 48)))
    else
      none
  | _ => none

/-- Column-level `letterSubGradesToNumeric`: the source builds `gradeDict`
over the unique string entries of `sub_grade` (skipping non-string entries
by the `type(grade) is str` test) and replaces each string entry by its
numeric value; an exception while building the dict aborts the step. -/
def letterSubGradesToNumeric (col : List Val) : Option (List Val) :=
  col.mapM fun v =>
    match v with
    | Val.str g => (subGradeScore g).map fun z => Val.num (z : ℚ)
    | v => some v

/-- Statuses coded as defaulted, from the source of `preproc_emp_titles`:
`x in ['Charged Off', 'Default', 'Late (31-120 days)']`. -/
def defaultStatuses : List String := ["Charged Off", "Default", "Late (31-120 days)"]

/-- The boolean `status` column: `df['loan_status'].apply(lambda x: x in [...])`. -/
def statusFlag (s : String) : Bool := defaultStatuses.contains s

/-- The exported binary label: `df['target'] = df.status.astype(int)`. -/
def target (s : String) : ℕ := if statusFlag s then 1 else 0

/-- Python `str.strip(c)` with a one-character argument: remove the maximal
run of `c` from the left end and from the right end of the string. -/
def stripChar (c : Char) (s : String) : String :=
  ⟨((s.data.dropWhile (fun a => a == c)).reverse.dropWhile (fun a => a == c)).reverse⟩

/-- Numeric value of a decimal digit character. -/
def digitVal (c : Char) : ℕ := c.toNat - 48

/-- Value of a digit-character list read as a base-10 numeral. -/
def natOfDigits (l : List Char) : ℕ := l.foldl (fun a c => 10 * a + digitVal c) 0

/-- Python `float()` restricted to plain decimal numerals (an optional
integer part, an optional `.` and fractional part), returning an exact `ℚ`
instead of a binary float; a string that is not such a numeral raises
`ValueError`, modelled by `none`. -/
def parseDec (l : List Char) : Option ℚ :=
  let ip := l.takeWhile fun c => !(c == '.')
  match l.dropWhile fun c => !(c == '.') with
  | [] =>
    if ip ≠ [] ∧ ip.all Char.isDigit then some (natOfDigits ip) else none
  | _ :: frac =>
    if (ip ≠ [] ∨ frac ≠ []) ∧ ip.all Char.isDigit ∧ frac.all Char.isDigit ∧
        frac.all (fun c => !(c == '.')) then
      some ((natOfDigits ip : ℚ) + (natOfDigits frac : ℚ) / 10 ^ frac.length)
    else none

/-- The source's percent-string parser: `float(x.strip('%'))/100`. -/
def p2f (x : String) : Option ℚ :=
  (parseDec (stripChar '%' x).data).map fun q => q / 100

/-- The `int_rate`/`revol_util` conversion step of `preprocess_LC_df`:
`df[col].dropna().apply(p2f)`.  `dropna` skips null entries (they stay null
after the aligned assignment); an exception raised by `p2f` on any entry
propagates and the step produces no value. -/
def intRateStep (entries : List (Option String)) : Option (List (Option ℚ)) :=
  entries.mapM fun e =>
    match e with
    | none => some none
    | some s => (p2f s).map some

/-- Truth test for a null cell, pandas `isnull`. -/
def isNull (v : Val) : Bool :=
  match v with
  | Val.null => true
  | _ => false

/-- Fraction of null entries of a column, `df.isnull().mean()` for one
column. -/
def missingFraction (es : List Val) : ℚ := (es.countP isNull : ℚ) / (es.length : ℚ)

/-- The drop list of `preprocess_LC_df`:
`sorted(list(missing_fractions[missing_fractions > 0.3].index))`.  The
source sorts the label list; sorting changes only the order in which labels
are handed to `df.drop`, not which columns are dropped, so the embedding
keeps column order. -/
def dropList (df : List (String × List Val)) : List String :=
  (df.filter fun c => decide (missingFraction c.2 > 3 / 10)).map Prod.fst

/-- The high-null-rate column drop, `df.drop(labels=drop_list, axis=1)`:
every column whose label is in the drop list is removed. -/
def dropHighNullCols (df : List (String × List Val)) : List (String × List Val) :=
  df.filter fun c => !(dropList df).contains c.1

/-- Pandas `pd.merge(left, right, on='zip_code', how='left')` on keyed rows:
each left row is paired with every right row of equal key, or kept once with
a null (`none`) right part when no right key matches. -/
def leftMerge (l : List (String × β)) (r : List (String × γ)) :
    List (String × β × Option γ) :=
  l.flatMap fun p =>
    match r.filter fun q => q.1 == p.1 with
    | [] => [(p.1, p.2, none)]
    | ms => ms.map fun q => (p.1, p.2, some q.2)

/-- Lookup of the first right row with a given key; under key uniqueness
this is the value a left merge attaches. -/
def lookupKey (r : List (String × γ)) (k : String) : Option γ :=
  (r.find? fun q => q.1 == k).map Prod.snd

/-- The three zip-code merges of `preprocess_LC_df`, in source order:
`df = pd.merge(df, zips, on='zip_code', how='left')`, then `lat_lon`,
then `unemp`. -/
def mergeThirdParty (df : List (String × β)) (zips : List (String × γ1))
    (lat_lon : List (String × γ2)) (unemp : List (String × γ3)) :
    List (String × ((β × Option γ1) × Option γ2) × Option γ3) :=
  leftMerge (leftMerge (leftMerge df zips) lat_lon) unemp

/-- Days since 0000-03-01 of a civil date (y, m, d), the standard civil
day-count algorithm; this embeds a pandas day-resolution `Timestamp`, whose
subtraction yields the difference of the two day numbers. -/
def daysFromCivil (y m d : ℕ) : ℕ :=
  let y2 := if m ≤ 2 then y - 1 else y
  let era := y2 / 400
  let yoe := y2 % 400
  let mp := (m + 9) % 12
  let doy := (153 * mp + 2) / 5 + (d - 1)
  let doe := yoe * 365 + yoe / 4 - yoe / 100 + doy
  era * 146097 + doe

/-- Day number of `start_date = pd.Timestamp('2018-08-01')`. -/
def startDateDays : ℕ := daysFromCivil 2018 8 1

/-- Per-entry date-to-delta conversion of `preprocess_LC_df`:
`df[col] = (df[col] - start_date); df[col] = df[col].dt.days`.  A null
(NaT) entry stays null; the result is the signed day difference. -/
def toDelta (v : Val) : Val :=
  match v with
  | Val.date y m d => Val.num (((daysFromCivil y m d : ℤ) - (startDateDays : ℤ) : ℤ) : ℚ)
  | v => v

/-- The date columns of `preprocess_LC_df`. -/
def date_cols : List String :=
  ["issue_d", "earliest_cr_line", "last_pymnt_d", "last_credit_pull_d", "next_pymnt_d"]

/-- Column assignment `df[name] = f(df[name])` guarded by
`if col in df.columns.tolist()`: a column of that name is transformed in
place, and a dataframe without the column is unchanged. -/
def setCol (name : String) (f : Val → Val) (df : List (String × List Val)) :
    List (String × List Val) :=
  df.map fun c => if c.1 = name then (c.1, c.2.map f) else c

/-- The date-conversion loops of `preprocess_LC_df`: for each date column
present in the dataframe, replace it by its timedelta (in days) from
`start_date`. -/
def convertDateCols (df : List (String × List Val)) : List (String × List Val) :=
  date_cols.foldl (fun acc col => setCol col toDelta acc) df

/-- Column data with its pandas dtype: an `object` column of optional
strings (`none` is NaN), or a numeric column. -/
inductive ColData where
  | objCol (entries : List (Option String)) : ColData
  | numCol (entries : List (Option ℚ)) : ColData
  deriving DecidableEq

/-- Test `df[col].dtype == 'object'`. -/
def isObjectDtype (c : ColData) : Bool :=
  match c with
  | ColData.objCol _ => true
  | ColData.numCol _ => false

/-- An indicator (dummy) column: 1 where the entry equals `v`, else 0. -/
def indicator (entries : List (Option String)) (v : Option String) : ColData :=
  ColData.numCol (entries.map fun e => if e = v then some 1 else some 0)

/-- Dummy columns produced by `pd.get_dummies` for one object column with
`dummy_na=True` and the default `prefix_sep='_'`: one indicator per distinct
non-null value, plus a NaN indicator.  Pandas enumerates the distinct values
in sorted order; the embedding enumerates them in first-occurrence order,
which changes only the order of the produced columns. -/
def dummyColumns (name : String) (entries : List (Option String)) :
    List (String × ColData) :=
  ((entries.filterMap id).dedup.map fun v => (name ++ "_" ++ v, indicator entries (some v)))
    ++ [(name ++ "_nan", indicator entries none)]

/-- Embedding of `pd.get_dummies(df, columns=categorical_columns,
dummy_na=nan_as_category)` where `categorical_columns` is exactly the list
of object-dtype columns: non-encoded columns pass through, then each
encoded column contributes its dummy columns. -/
def get_dummies (df : List (String × ColData)) : List (String × ColData) :=
  (df.filter fun c => !isObjectDtype c.2)
    ++ (df.filter fun c => isObjectDtype c.2).flatMap fun c =>
        match c.2 with
        | ColData.objCol es => dummyColumns c.1 es
        | ColData.numCol _ => []

/-- The source's `one_hot_encoder` with the default `nan_as_category=True`:
encode the object-dtype columns and return the encoded dataframe together
with `new_columns`, the output column names that were not input column
names. -/
def one_hot_encoder (df : List (String × ColData)) :
    List (String × ColData) × List String :=
  ((get_dummies df),
    ((get_dummies df).map Prod.fst).filter fun c => !(df.map Prod.fst).contains c)

/-- Decimal digit characters of a natural number, most significant first;
the embedding of Python `str` on a non-negative integer. -/
def decimalRepr (n : ℕ) : List Char :=
  if n = 0 then ['0'] else ((Nat.digits 10 n).map Nat.digitChar).reverse

/-- Python `str(n)` for a non-negative integer `n`. -/
def pyStr (n : ℕ) : String := ⟨decimalRepr n⟩

/-- Python `s.zfill(w)` on an unsigned string: left-pad with `'0'` to width
`w`. -/
def pyZfill (s : String) (w : ℕ) : String :=
  ⟨List.replicate (w - s.data.length) '0' ++ s.data⟩

/-- Key normalization of `preprocess_estabs` and `preprocess_unemp`:
`str(int(x)).zfill(3)` on the numeric 3-digit zip prefix. -/
def estabsKey (z : ℕ) : String := pyZfill (pyStr z) 3

/-- Key normalization of `preprocess_lat_lons`: plain `str` applied to the
numeric `prezip` column, with no zero padding. -/
def latLonKey (z : ℕ) : String := pyStr z

/-- The lat-lon table as keyed rows after `preprocess_lat_lons`: each raw
numeric prezip becomes the key `str(prezip)` with its payload. -/
def preprocess_lat_lons (raw : List (ℕ × γ)) : List (String × γ) :=
  raw.map fun p => (latLonKey p.1, p.2)

/-- The establishments table as keyed rows after `preprocess_estabs`. -/
def preprocess_estabs (raw : List (ℕ × γ)) : List (String × γ) :=
  raw.map fun p => (estabsKey p.1, p.2)

/-- The unemployment table as keyed rows after `preprocess_unemp`; it uses
the same `str(int(x)).zfill(3)` normalization as `preprocess_estabs`. -/
def preprocess_unemp (raw : List (ℕ × γ)) : List (String × γ) :=
  raw.map fun p => (estabsKey p.1, p.2)

example : subGradeScore "A1" = some 35 := by decide
example : subGradeScore "G5" = some 1 := by decide
example : subGradeScore "G6" = some 0 := by decide
example : target "Charged Off" = 1 := by decide
example : target "Current" = 0 := by decide
example : p2f "12.5%" = some (1/8) := by
  simp +decide [p2f, parseDec, stripChar, natOfDigits, digitVal]
  norm_num
example : p2f "abc" = none := by
  simp +decide [p2f, parseDec, stripChar]
example : intRateStep [some "10%", none] = some [some (1/10), none] := by
  simp +decide [intRateStep, p2f, parseDec, stripChar, natOfDigits, digitVal,
    List.mapM.loop]
  norm_num

lemma digitVal_digitChar (d : ℕ) (hd : d < 10) : digitVal (Nat.digitChar d) = d := by
  interval_cases d <;> decide

lemma digitChar_isDigit (d : ℕ) (hd : d < 10) : (Nat.digitChar d).isDigit = true := by
  interval_cases d <;> decide

lemma digitChar_ne_pct (d : ℕ) (hd : d < 10) : Nat.digitChar d ≠ '%' := by
  interval_cases d <;> decide

lemma digitChar_ne_dot (d : ℕ) (hd : d < 10) : Nat.digitChar d ≠ '.' := by
  interval_cases d <;> decide

lemma digitChar_toNat (d : ℕ) (hd : d < 10) : (Nat.digitChar d).toNat = 48 + d := by
  interval_cases d <;> decide

lemma subGradeScore_mk (L : Char) (d : ℕ) (hd1 : 1 ≤ d) (hd2 : d ≤ 5) :
    subGradeScore ⟨[L, Nat.digitChar d]⟩ =
      some (36 - (((L.toNat : ℤ) - 65) * 5 + (d : ℤ))) := by
  have hdig : (Nat.digitChar d).isDigit = true := digitChar_isDigit d (by omega)
  have htn : (Nat.digitChar d).toNat = 48 + d := digitChar_toNat d (by omega)
  show subGradeScore (String.mk [L, Nat.digitChar d]) = _
  rw [subGradeScore]
  simp only [hdig, if_true, htn]
  congr 1
  push_cast
  ring

/-- C10: the exported binary label is defined exactly by loan status:
`target` is 1 iff `loan_status` is 'Charged Off', 'Default' or
'Late (31-120 days)', and 0 for every other status, in particular for
'Late (16-30 days)', 'In Grace Period', 'Current' and 'Fully Paid'. -/
theorem target_iff_default_status (s : String) :
    (target s = 1 ↔ s ∈ defaultStatuses) ∧ (s ∉ defaultStatuses → target s = 0) ∧
    target "Late (16-30 days)" = 0 ∧ target "In Grace Period" = 0 ∧
    target "Current" = 0 ∧ target "Fully Paid" = 0 ∧
    target "Charged Off" = 1 ∧ target "Default" = 1 ∧
    target "Late (31-120 days)" = 1 := by
  have hc : statusFlag s = true ↔ s ∈ defaultStatuses := by
    simp [statusFlag, List.contains_iff_exists_mem_beq, beq_iff_eq]
  refine ⟨?_, ?_, by decide, by decide, by decide, by decide, by decide, by decide, by decide⟩
  · rcases Bool.eq_false_or_eq_true (statusFlag s) with h | h <;>
      simp [target, h, ← hc]
  · intro hs
    have : statusFlag s = false := by
      rcases Bool.eq_false_or_eq_true (statusFlag s) with h | h
      · exact absurd (hc.mp h) hs
      · exact h
    simp [target, this]

/-- C1 counterexample: the claim (repeating the function's own docstring)
says the best sub-grade A1 is mapped to 36, but the code's formula
`36 - ((ord('A') - 65)*5 + 1)` maps "A1" to 35. -/
theorem subGradeScore_A1_cex :
    subGradeScore "A1" = some 35 ∧ subGradeScore "A1" ≠ some 36 := by
  constructor <;> decide

/-- C1 amended: for a letter L in A..G and a digit d in 1..5 the replacement
value of the sub-grade "Ld" is 36 - ((code(L) - code('A'))*5 + d), better
grades receive strictly higher values, and the extreme grades are A1 ↦ 35
and G5 ↦ 1 (not 36 and 1 as the docstring says). -/
theorem subGradeScore_formula (L1 L2 : Char) (d1 d2 : ℕ)
    (hL1a : 65 ≤ L1.toNat) (hL1b : L1.toNat ≤ 71)
    (hL2a : 65 ≤ L2.toNat) (hL2b : L2.toNat ≤ 71)
    (hd1a : 1 ≤ d1) (hd1b : d1 ≤ 5) (hd2a : 1 ≤ d2) (hd2b : d2 ≤ 5) :
    subGradeScore ⟨[L1, Nat.digitChar d1]⟩ =
      some (36 - (((L1.toNat : ℤ) - 65) * 5 + (d1 : ℤ)))
    ∧ (L1.toNat < L2.toNat ∨ (L1 = L2 ∧ d1 < d2) →
        ∀ z1 z2 : ℤ, subGradeScore ⟨[L1, Nat.digitChar d1]⟩ = some z1 →
          subGradeScore ⟨[L2, Nat.digitChar d2]⟩ = some z2 → z2 < z1)
    ∧ subGradeScore "A1" = some 35 ∧ subGradeScore "G5" = some 1 := by
  refine ⟨subGradeScore_mk L1 d1 hd1a hd1b, ?_, by decide, by decide⟩
  intro hlt z1 z2 h1 h2
  rw [subGradeScore_mk L1 d1 hd1a hd1b] at h1
  rw [subGradeScore_mk L2 d2 hd2a hd2b] at h2
  have e1 : z1 = 36 - (((L1.toNat : ℤ) - 65) * 5 + (d1 : ℤ)) := by
    exact (Option.some.injEq _ _ ▸ h1).symm
  have e2 : z2 = 36 - (((L2.toNat : ℤ) - 65) * 5 + (d2 : ℤ)) := by
    exact (Option.some.injEq _ _ ▸ h2).symm
  rcases hlt with h | ⟨hL, hd⟩
  · subst e1; subst e2; omega
  · subst e1; subst e2; rw [hL]; omega

/-- Witness for `subGradeScore_formula`: B2 against C1. -/
theorem subGradeScore_formula_witness :
    subGradeScore ⟨['B', Nat.digitChar 2]⟩ =
      some (36 - ((('B'.toNat : ℤ) - 65) * 5 + (2 : ℤ))) :=
  (subGradeScore_formula 'B' 'C' 2 1 (by decide) (by decide) (by decide) (by decide)
    (by decide) (by decide) (by decide) (by decide)).1

lemma mapM_eq_none_of_mem {α β : Type} (f : α → Option β) (l : List α) (a : α)
    (ha : a ∈ l) (hf : f a = none) : l.mapM f = none := by
  induction l with
  | nil => cases ha
  | cons x xs ih =>
    rw [List.mapM_cons]
    rcases List.mem_cons.mp ha with h | h
    · subst h; rw [hf]; rfl
    · cases hx : f x
      · rfl
      · rw [ih h]; rfl

/-- C8: no recovery is implemented: on a malformed entry, `p2f` produces no
substitute value and the failure propagates through the whole `int_rate`
conversion step of `preprocess_LC_df`. -/
theorem p2f_no_recovery (entries : List (Option String)) (s : String)
    (hmem : some s ∈ entries)
    (hbad : parseDec (stripChar '%' s).data = none) :
    p2f s = none ∧ intRateStep entries = none ∧ p2f "abc" = none := by
  have hp : p2f s = none := by rw [p2f, hbad]; rfl
  refine ⟨hp, ?_, by decide⟩
  exact mapM_eq_none_of_mem _ entries (some s) hmem (by simp [hp])

/-- Witness for `p2f_no_recovery`: a column containing the non-numeral
entry "abc". -/
theorem p2f_no_recovery_witness : intRateStep [some "abc"] = none :=
  (p2f_no_recovery [some "abc"] "abc" (by simp) (by decide)).2.1

lemma dropWhile_eq_self_of_head {α : Type} (p : α → Bool) (l : List α)
    (h : ∀ c, l.head? = some c → p c = false) : l.dropWhile p = l := by
  cases l with
  | nil => rfl
  | cons a t => simp [List.dropWhile_cons, h a rfl]

lemma takeWhile_append_all {α : Type} (p : α → Bool) (l1 l2 : List α)
    (h : ∀ c ∈ l1, p c = true) : (l1 ++ l2).takeWhile p = l1 ++ l2.takeWhile p := by
  induction l1 with
  | nil => simp
  | cons a t ih =>
    simp only [List.cons_append, List.takeWhile_cons, h a (List.mem_cons_self a t), if_true]
    rw [ih fun c hc => h c (List.mem_cons_of_mem a hc)]

lemma dropWhile_append_all {α : Type} (p : α → Bool) (l1 l2 : List α)
    (h : ∀ c ∈ l1, p c = true) : (l1 ++ l2).dropWhile p = l2.dropWhile p := by
  induction l1 with
  | nil => simp
  | cons a t ih =>
    simp only [List.cons_append, List.dropWhile_cons, h a (List.mem_cons_self a t), if_true]
    exact ih fun c hc => h c (List.mem_cons_of_mem a hc)

lemma dropWhile_append_cases {α : Type} (p : α → Bool) (l1 l2 : List α) :
    (l1 ++ l2).dropWhile p = l2.dropWhile p ∧ l1.dropWhile p = [] ∨
      (l1 ++ l2).dropWhile p = l1.dropWhile p ++ l2 ∧ l1.dropWhile p ≠ [] := by
  induction l1 with
  | nil => left; exact ⟨rfl, rfl⟩
  | cons a t ih =>
    rcases Bool.eq_false_or_eq_true (p a) with hpa | hpa
    · simp only [List.cons_append, List.dropWhile_cons, hpa, if_true]
      exact ih
    · right
      simp [List.dropWhile_cons, hpa]

lemma stripChar_append_pct (l : List Char) (hne : l ≠ [])
    (hh : ∀ c, l.head? = some c → ¬ c = '%')
    (hl : ∀ c, l.getLast? = some c → ¬ c = '%') :
    stripChar '%' ⟨l ++ ['%']⟩ = ⟨l⟩ := by
  obtain ⟨a, t, rfl⟩ := List.exists_cons_of_ne_nil hne
  refine congrArg String.mk ?_
  have ha : (a == '%') = false := by simp [hh a rfl]
  have h1 : ((a :: t) ++ ['%']).dropWhile (fun x => x == '%') = (a :: t) ++ ['%'] := by
    simp [List.cons_append, List.dropWhile_cons, ha]
  show ((((a :: t) ++ ['%']).dropWhile (fun x => x == '%')).reverse.dropWhile
      (fun x => x == '%')).reverse = a :: t
  rw [h1, List.reverse_append]
  show (((['%'].reverse ++ (a :: t).reverse)).dropWhile (fun x => x == '%')).reverse = a :: t
  have h2 : (['%'].reverse ++ (a :: t).reverse).dropWhile (fun x => x == '%') =
      (a :: t).reverse.dropWhile (fun x => x == '%') := by
    simp [List.dropWhile_cons]
  rw [h2, dropWhile_eq_self_of_head, List.reverse_reverse]
  intro c hc
  rw [List.head?_reverse] at hc
  simp [hl c hc]

lemma strip_of_all_ne_pct (l : List Char) (hne : l ≠ [])
    (hall : ∀ c ∈ l, ¬ c = '%') : stripChar '%' ⟨l ++ ['%']⟩ = ⟨l⟩ :=
  stripChar_append_pct l hne
    (fun c h => hall c (List.mem_of_mem_head? (Option.mem_iff.mpr h)))
    (fun c h => hall c (List.mem_of_mem_getLast? (Option.mem_iff.mpr h)))

lemma foldl_digits (ds : List ℕ) (h : ∀ d ∈ ds, d < 10) (a : ℕ) :
    (ds.map Nat.digitChar).foldl (fun a c => 10 * a + digitVal c) a =
      ds.foldl (fun a d => 10 * a + d) a := by
  induction ds generalizing a with
  | nil => rfl
  | cons x xs ih =>
    simp only [List.map_cons, List.foldl_cons]
    rw [digitVal_digitChar x (h x (List.mem_cons_self x xs))]
    exact ih (fun d hd => h d (List.mem_cons_of_mem x hd)) _

lemma natOfDigits_map (ds : List ℕ) (h : ∀ d ∈ ds, d < 10) :
    natOfDigits (ds.map Nat.digitChar) = ds.foldl (fun a d => 10 * a + d) 0 :=
  foldl_digits ds h 0

lemma all_digitChar_isDigit (ds : List ℕ) (h : ∀ d ∈ ds, d < 10) :
    (ds.map Nat.digitChar).all Char.isDigit = true := by
  rw [List.all_eq_true]
  intro c hc
  obtain ⟨d, hd, rfl⟩ := List.mem_map.mp hc
  exact digitChar_isDigit d (h d hd)

lemma all_digitChar_ne_dot (ds : List ℕ) (h : ∀ d ∈ ds, d < 10) :
    ∀ c ∈ ds.map Nat.digitChar, (!(c == '.')) = true := by
  intro c hc
  obtain ⟨d, hd, rfl⟩ := List.mem_map.mp hc
  simp [digitChar_ne_dot d (h d hd)]

lemma parseDec_int (ds : List ℕ) (hne : ds ≠ []) (h : ∀ d ∈ ds, d < 10) :
    parseDec (ds.map Nat.digitChar) =
      some ((ds.foldl (fun a d => 10 * a + d) 0 : ℕ) : ℚ) := by
  have ht : (ds.map Nat.digitChar).takeWhile (fun c => !(c == '.')) =
      ds.map Nat.digitChar := by
    have := takeWhile_append_all (fun c => !(c == '.')) (ds.map Nat.digitChar) []
      (all_digitChar_ne_dot ds h)
    simpa using this
  have hd2 : (ds.map Nat.digitChar).dropWhile (fun c => !(c == '.')) = [] := by
    have := dropWhile_append_all (fun c => !(c == '.')) (ds.map Nat.digitChar) []
      (all_digitChar_ne_dot ds h)
    simpa using this
  rw [parseDec]
  simp only [ht, hd2]
  rw [if_pos]
  · rw [natOfDigits_map ds h]
  · exact ⟨by simp [hne], all_digitChar_isDigit ds h⟩

lemma parseDec_frac (ds fs : List ℕ) (hne : ds ≠ []) (hds : ∀ d ∈ ds, d < 10)
    (hfs : ∀ d ∈ fs, d < 10) :
    parseDec (ds.map Nat.digitChar ++ '.' :: fs.map Nat.digitChar) =
      some (((ds.foldl (fun a d => 10 * a + d) 0 : ℕ) : ℚ) +
        ((fs.foldl (fun a d => 10 * a + d) 0 : ℕ) : ℚ) / 10 ^ fs.length) := by
  have ht : (ds.map Nat.digitChar ++ '.' :: fs.map Nat.digitChar).takeWhile
      (fun c => !(c == '.')) = ds.map Nat.digitChar := by
    rw [takeWhile_append_all (fun c => !(c == '.')) _ _ (all_digitChar_ne_dot ds hds)]
    simp [List.takeWhile_cons]
  have hd2 : (ds.map Nat.digitChar ++ '.' :: fs.map Nat.digitChar).dropWhile
      (fun c => !(c == '.')) = '.' :: fs.map Nat.digitChar := by
    rw [dropWhile_append_all (fun c => !(c == '.')) _ _ (all_digitChar_ne_dot ds hds)]
    simp [List.dropWhile_cons]
  rw [parseDec]
  simp only [ht, hd2]
  rw [if_pos]
  · rw [natOfDigits_map ds hds, natOfDigits_map fs hfs, List.length_map]
  · refine ⟨Or.inl (by simp [hne]), all_digitChar_isDigit ds hds,
      all_digitChar_isDigit fs hfs, ?_⟩
    rw [List.all_eq_true]
    exact all_digitChar_ne_dot fs hfs

/-- C2: on a string that is a decimal numeral followed by a trailing percent
sign, `p2f` returns the value of the numeral divided by 100 (both for pure
integer numerals and for numerals with a fractional part), and `strip('%')`
removes exactly the runs of '%' at the two ends of the string: a string with
no '%' at either end is unchanged, and '%' characters at either end are
removed. -/
theorem p2f_percent_numeral (ds fs : List ℕ) (hne : ds ≠ [])
    (hds : ∀ d ∈ ds, d < 10) (hfs : ∀ d ∈ fs, d < 10) :
    p2f ⟨ds.map Nat.digitChar ++ ['%']⟩ =
      some (((ds.foldl (fun a d => 10 * a + d) 0 : ℕ) : ℚ) / 100)
    ∧ p2f ⟨(ds.map Nat.digitChar ++ '.' :: fs.map Nat.digitChar) ++ ['%']⟩ =
      some (((((ds.foldl (fun a d => 10 * a + d) 0 : ℕ) : ℚ) +
        ((fs.foldl (fun a d => 10 * a + d) 0 : ℕ) : ℚ) / 10 ^ fs.length)) / 100)
    ∧ (∀ s : String, (∀ c, s.data.head? = some c → ¬ c = '%') →
        (∀ c, s.data.getLast? = some c → ¬ c = '%') → stripChar '%' s = s)
    ∧ (∀ s : String, stripChar '%' ⟨'%' :: (s.data ++ ['%'])⟩ = stripChar '%' s) := by
  refine ⟨?_, ?_, ?_, ?_⟩
  · have hstrip : stripChar '%' ⟨ds.map Nat.digitChar ++ ['%']⟩ = ⟨ds.map Nat.digitChar⟩ := by
      refine strip_of_all_ne_pct _ (by simp [hne]) ?_
      intro c hc
      obtain ⟨d, hd, rfl⟩ := List.mem_map.mp hc
      exact digitChar_ne_pct d (hds d hd)
    rw [p2f, hstrip]
    show (parseDec (ds.map Nat.digitChar)).map _ = _
    rw [parseDec_int ds hne hds]
    rfl
  · have hstrip : stripChar '%' ⟨(ds.map Nat.digitChar ++ '.' :: fs.map Nat.digitChar) ++ ['%']⟩
        = ⟨ds.map Nat.digitChar ++ '.' :: fs.map Nat.digitChar⟩ := by
      refine strip_of_all_ne_pct _ (by simp) ?_
      intro c hc
      rcases List.mem_append.mp hc with hc | hc
      · obtain ⟨d, hd, rfl⟩ := List.mem_map.mp hc
        exact digitChar_ne_pct d (hds d hd)
      · rcases List.mem_cons.mp hc with rfl | hc
        · decide
        · obtain ⟨d, hd, rfl⟩ := List.mem_map.mp hc
          exact digitChar_ne_pct d (hfs d hd)
    rw [p2f, hstrip]
    show (parseDec (ds.map Nat.digitChar ++ '.' :: fs.map Nat.digitChar)).map _ = _
    rw [parseDec_frac ds fs hne hds hfs]
    rfl
  · intro s h1 h2
    obtain ⟨l⟩ := s
    refine congrArg String.mk ?_
    show ((l.dropWhile (fun x => x == '%')).reverse.dropWhile (fun x => x == '%')).reverse = l
    rw [dropWhile_eq_self_of_head _ l (fun c hc => by simp [h1 c hc])]
    rw [dropWhile_eq_self_of_head, List.reverse_reverse]
    intro c hc
    rw [List.head?_reverse] at hc
    simp [h2 c hc]
  · intro s
    obtain ⟨l⟩ := s
    refine congrArg String.mk ?_
    show ((('%' :: (l ++ ['%'])).dropWhile (fun x => x == '%')).reverse.dropWhile
        (fun x => x == '%')).reverse =
      ((l.dropWhile (fun x => x == '%')).reverse.dropWhile (fun x => x == '%')).reverse
    have hstep : ('%' :: (l ++ ['%'])).dropWhile (fun x => x == '%') =
        (l ++ ['%']).dropWhile (fun x => x == '%') := by
      simp [List.dropWhile_cons]
    rw [hstep]
    rcases dropWhile_append_cases (fun x => x == '%') l ['%'] with ⟨heq, hnil⟩ | ⟨heq, hnil⟩
    · rw [heq, hnil]
      simp [List.dropWhile_cons]
    · rw [heq, List.reverse_append]
      simp [List.dropWhile_cons]

/-- Witness for `p2f_percent_numeral`: the numeral 12 with percent sign. -/
theorem p2f_percent_numeral_witness :
    p2f ⟨[1, 2].map Nat.digitChar ++ ['%']⟩ =
      some ((([1, 2].foldl (fun a d => 10 * a + d) 0 : ℕ) : ℚ) / 100) :=
  (p2f_percent_numeral [1, 2] [5] (by decide) (by decide) (by decide)).1

/-- C3: after the three zip-code merges, the high-null drop of
`preprocess_LC_df` keeps a column iff its null fraction is at most 0.3 and
puts a column on the drop list iff its null fraction exceeds 0.3 (the
in-code comment says 'more than 70% NULL', but the executed cutoff is
a fraction of 0.3). -/
theorem dropHighNullCols_spec (df : List (String × List Val)) (c : String × List Val)
    (hnd : (df.map Prod.fst).Nodup) (hc : c ∈ df) :
    (c ∈ dropHighNullCols df ↔ missingFraction c.2 ≤ 3 / 10)
    ∧ (c.1 ∈ dropList df ↔ missingFraction c.2 > 3 / 10) := by
  have hdl : c.1 ∈ dropList df ↔ missingFraction c.2 > 3 / 10 := by
    constructor
    · intro h
      obtain ⟨c', hc', he⟩ := List.mem_map.mp h
      have hcf := List.mem_filter.mp hc'
      have hcc : c' = c := List.inj_on_of_nodup_map hnd hcf.1 hc he
      subst hcc
      exact of_decide_eq_true hcf.2
    · intro h
      exact List.mem_map.mpr ⟨c, List.mem_filter.mpr ⟨hc, decide_eq_true h⟩, rfl⟩
  have hcm : ((dropList df).contains c.1 = true) ↔ c.1 ∈ dropList df := by
    simp [List.contains_iff_exists_mem_beq, beq_iff_eq]
  have hcm2 : ((dropList df).contains c.1 = false) ↔ ¬ c.1 ∈ dropList df := by
    rw [Bool.eq_false_iff]
    exact not_congr hcm
  have hmf : c ∈ dropHighNullCols df ↔ c ∈ df ∧ ¬ c.1 ∈ dropList df := by
    rw [dropHighNullCols, List.mem_filter, Bool.not_eq_true']
    exact and_congr Iff.rfl hcm2
  rw [hmf]
  refine ⟨⟨fun h => ?_, fun hle => ?_⟩, hdl⟩
  · exact le_of_not_lt fun hlt => h.2 (hdl.mpr hlt)
  · exact ⟨hc, fun hm => absurd (hdl.mp hm) (not_lt.mpr hle)⟩

/-- Witness for `dropHighNullCols_spec`: a fully non-null column is kept
while a fully null column is dropped. -/
theorem dropHighNullCols_spec_witness :
    ("x", [Val.num 1]) ∈ dropHighNullCols [("x", [Val.num 1]), ("y", [Val.null])] :=
  ((dropHighNullCols_spec [("x", [Val.num 1]), ("y", [Val.null])] ("x", [Val.num 1])
    (by decide) (by decide)).1).mpr
    (by norm_num [missingFraction, List.countP, List.countP.go, isNull])

lemma filter_key_eq_find? {γ : Type} (r : List (String × γ)) (k : String)
    (h : (r.map Prod.fst).Nodup) :
    r.filter (fun q => q.1 == k) = (r.find? fun q => q.1 == k).toList := by
  induction r with
  | nil => rfl
  | cons a t ih =>
    rw [List.filter_cons, List.find?_cons]
    rw [List.map_cons, List.nodup_cons] at h
    rcases Bool.eq_false_or_eq_true (a.1 == k) with hak | hak
    · have hk : a.1 = k := by simpa using hak
      have hfil : t.filter (fun q => q.1 == k) = [] := by
        rw [List.filter_eq_nil_iff]
        intro q hq
        have hne : q.1 ≠ a.1 := fun he => h.1 (he ▸ List.mem_map_of_mem Prod.fst hq)
        simp [hk ▸ hne]
      simp [hak, hfil, Option.toList]
    · simp [hak, ih h.2]

lemma leftMerge_eq_map {β γ : Type} (l : List (String × β)) (r : List (String × γ))
    (h : (r.map Prod.fst).Nodup) :
    leftMerge l r = l.map fun p => (p.1, p.2, lookupKey r p.1) := by
  induction l with
  | nil => rfl
  | cons p t ih =>
    have hstep : leftMerge (p :: t) r =
        (match r.filter fun q => q.1 == p.1 with
         | [] => [(p.1, p.2, (none : Option γ))]
         | ms => ms.map fun q => (p.1, p.2, some q.2)) ++ leftMerge t r := by
      rw [leftMerge, List.flatMap_cons]
      rfl
    rw [hstep, ih, List.map_cons]
    rw [filter_key_eq_find? r p.1 h]
    cases hf : r.find? fun q => q.1 == p.1 with
    | none => simp [Option.toList, lookupKey, hf]
    | some q => simp [Option.toList, lookupKey, hf]

/-- C4: the three zip-code merges are left joins on 'zip_code' applied in
the order establishments, lat-lon, unemployment; with unique right-table
keys every Lending Club row yields exactly one output row carrying the
looked-up right values, the row count is preserved, and a row whose key has
no match in the lat-lon table receives null in that table's columns. -/
theorem mergeThirdParty_spec {β γ1 γ2 γ3 : Type} (df : List (String × β))
    (zips : List (String × γ1)) (lat_lon : List (String × γ2))
    (unemp : List (String × γ3))
    (h1 : (zips.map Prod.fst).Nodup) (h2 : (lat_lon.map Prod.fst).Nodup)
    (h3 : (unemp.map Prod.fst).Nodup) :
    mergeThirdParty df zips lat_lon unemp =
      df.map (fun p => (p.1, ((p.2, lookupKey zips p.1), lookupKey lat_lon p.1),
        lookupKey unemp p.1))
    ∧ (mergeThirdParty df zips lat_lon unemp).length = df.length
    ∧ mergeThirdParty df zips lat_lon unemp =
        leftMerge (leftMerge (leftMerge df zips) lat_lon) unemp
    ∧ ∀ p ∈ df, (∀ q ∈ lat_lon, q.1 ≠ p.1) →
        (p.1, ((p.2, lookupKey zips p.1), none), lookupKey unemp p.1) ∈
          mergeThirdParty df zips lat_lon unemp := by
  have hmain : mergeThirdParty df zips lat_lon unemp =
      df.map (fun p => (p.1, ((p.2, lookupKey zips p.1), lookupKey lat_lon p.1),
        lookupKey unemp p.1)) := by
    rw [mergeThirdParty, leftMerge_eq_map df zips h1, leftMerge_eq_map _ lat_lon h2,
      leftMerge_eq_map _ unemp h3, List.map_map, List.map_map]
    rfl
  refine ⟨hmain, by rw [hmain, List.length_map], rfl, ?_⟩
  intro p hp hnomatch
  have hf : (lat_lon.find? fun q => q.1 == p.1) = none :=
    List.find?_eq_none.mpr fun q hq => by simp [hnomatch q hq]
  have hnone : lookupKey lat_lon p.1 = none := by rw [lookupKey, hf]; rfl
  rw [hmain]
  refine List.mem_map.mpr ⟨p, hp, ?_⟩
  rw [hnone]

/-- Witness for `mergeThirdParty_spec`: a one-row frame whose key matches
the establishments and unemployment tables but not the lat-lon table. -/
theorem mergeThirdParty_spec_witness :
    (("054" : String), (((0 : ℕ), lookupKey [("054", (1 : ℕ))] "054"),
      (none : Option ℕ)), lookupKey [("054", (3 : ℕ))] "054") ∈
      mergeThirdParty [("054", (0 : ℕ))] [("054", (1 : ℕ))] [("54", (2 : ℕ))]
        [("054", (3 : ℕ))] :=
  (mergeThirdParty_spec [("054", (0 : ℕ))] [("054", (1 : ℕ))] [("54", (2 : ℕ))]
    [("054", (3 : ℕ))] (by decide) (by decide) (by decide)).2.2.2
    ("054", 0) (by decide) (by decide)

lemma convertDateCols_eq_map (df : List (String × List Val)) :
    convertDateCols df =
      df.map fun c => if c.1 ∈ date_cols then (c.1, c.2.map toDelta) else c := by
  induction df with
  | nil => rfl
  | cons c t ih =>
    show ((fun x : String × List Val =>
        if x.1 = "next_pymnt_d" then (x.1, x.2.map toDelta) else x)
      ((fun x : String × List Val =>
        if x.1 = "last_credit_pull_d" then (x.1, x.2.map toDelta) else x)
      ((fun x : String × List Val =>
        if x.1 = "last_pymnt_d" then (x.1, x.2.map toDelta) else x)
      ((fun x : String × List Val =>
        if x.1 = "earliest_cr_line" then (x.1, x.2.map toDelta) else x)
      ((fun x : String × List Val =>
        if x.1 = "issue_d" then (x.1, x.2.map toDelta) else x) c))))) ::
      convertDateCols t = _
    rw [List.map_cons]
    congr 1
    · obtain ⟨n, es⟩ := c
      rcases eq_or_ne n "issue_d" with rfl | hn1
      · simp +decide [date_cols]
      rcases eq_or_ne n "earliest_cr_line" with rfl | hn2
      · simp +decide [date_cols]
      rcases eq_or_ne n "last_pymnt_d" with rfl | hn3
      · simp +decide [date_cols]
      rcases eq_or_ne n "last_credit_pull_d" with rfl | hn4
      · simp +decide [date_cols]
      rcases eq_or_ne n "next_pymnt_d" with rfl | hn5
      · simp +decide [date_cols]
      simp [date_cols, hn1, hn2, hn3, hn4, hn5]

/-- C5: the date conversion of `preprocess_LC_df` maps exactly the columns
named in `date_cols` that are present (absent names and all other columns
are untouched), replacing each date entry by the signed whole number of
days from the fixed start date 2018-08-01 to that date, negative for dates
before the start date; null (NaT) entries stay null. -/
theorem convertDateCols_spec (df : List (String × List Val)) :
    convertDateCols df =
      df.map (fun c => if c.1 ∈ date_cols then (c.1, c.2.map toDelta) else c)
    ∧ (∀ c ∈ df, ¬ c.1 ∈ date_cols → c ∈ convertDateCols df)
    ∧ (∀ y m d, toDelta (Val.date y m d) =
        Val.num (((daysFromCivil y m d : ℤ) - (daysFromCivil 2018 8 1 : ℤ) : ℤ) : ℚ))
    ∧ toDelta Val.null = Val.null
    ∧ ∀ y m d, daysFromCivil y m d < daysFromCivil 2018 8 1 →
        ∃ z : ℤ, z < 0 ∧ toDelta (Val.date y m d) = Val.num (z : ℚ) := by
  refine ⟨convertDateCols_eq_map df, ?_, fun y m d => rfl, rfl, ?_⟩
  · intro c hc hnd
    rw [convertDateCols_eq_map df]
    refine List.mem_map.mpr ⟨c, hc, ?_⟩
    rw [if_neg hnd]
  · intro y m d hlt
    refine ⟨(daysFromCivil y m d : ℤ) - (daysFromCivil 2018 8 1 : ℤ), ?_, rfl⟩
    omega

lemma get_dummies_not_object (df : List (String × ColData)) :
    ∀ c ∈ get_dummies df, isObjectDtype c.2 = false := by
  intro c hc
  rw [get_dummies, List.mem_append] at hc
  rcases hc with hc | hc
  · have h2 := (List.mem_filter.mp hc).2
    rwa [Bool.not_eq_true'] at h2
  · obtain ⟨a, ha, hca⟩ := List.mem_flatMap.mp hc
    cases h2 : a.2 with
    | numCol es =>
      simp only [h2] at hca
      exact absurd hca (List.not_mem_nil c)
    | objCol es =>
      simp only [h2] at hca
      rw [dummyColumns, List.mem_append] at hca
      rcases hca with hca | hca
      · obtain ⟨v, hv, rfl⟩ := List.mem_map.mp hca
        rfl
      · rw [List.mem_singleton.mp hca]
        rfl

/-- C7: the dataframe returned by `one_hot_encoder` contains no column of
object (string) dtype, so after preprocessing and one-hot encoding every
feature column passed to training is numeric. -/
theorem one_hot_encoder_numeric (df : List (String × ColData)) :
    ∀ c ∈ (one_hot_encoder df).1, isObjectDtype c.2 = false :=
  fun c hc => get_dummies_not_object df c hc

/-- Witness for `one_hot_encoder_numeric` on a one-column frame. -/
theorem one_hot_encoder_numeric_witness :
    isObjectDtype (("a", ColData.numCol [some 1]) : String × ColData).2 = false :=
  one_hot_encoder_numeric [("a", ColData.numCol [some 1])]
    ("a", ColData.numCol [some 1]) (by simp [one_hot_encoder, get_dummies, isObjectDtype])

/-- C6: `one_hot_encoder` encodes exactly the object-dtype columns: every
non-object column appears unchanged in the output, every object column is
replaced by one indicator column per distinct value plus (since
`nan_as_category` defaults to true) a NaN indicator column, the object
column itself being absent from the output, and the returned second
component is exactly the output column names that are not input column
names. -/
theorem one_hot_encoder_spec (df : List (String × ColData)) :
    (∀ c ∈ df, isObjectDtype c.2 = false → c ∈ (one_hot_encoder df).1)
    ∧ (∀ c ∈ df, ∀ es, c.2 = ColData.objCol es →
        (∀ v ∈ (es.filterMap id).dedup,
          (c.1 ++ "_" ++ v, indicator es (some v)) ∈ (one_hot_encoder df).1)
        ∧ (c.1 ++ "_nan", indicator es none) ∈ (one_hot_encoder df).1
        ∧ ¬ c ∈ (one_hot_encoder df).1)
    ∧ (one_hot_encoder df).2 =
        ((one_hot_encoder df).1.map Prod.fst).filter
          (fun n => !(df.map Prod.fst).contains n) := by
  refine ⟨?_, ?_, rfl⟩
  · intro c hc hob
    show c ∈ get_dummies df
    rw [get_dummies, List.mem_append]
    left
    refine List.mem_filter.mpr ⟨hc, ?_⟩
    rw [hob]
    rfl
  · intro c hc es hes
    have hobj : isObjectDtype c.2 = true := by rw [hes]; rfl
    have hcf : c ∈ df.filter fun c => isObjectDtype c.2 :=
      List.mem_filter.mpr ⟨hc, hobj⟩
    have hmem : ∀ x ∈ dummyColumns c.1 es, x ∈ (one_hot_encoder df).1 := by
      intro x hx
      show x ∈ get_dummies df
      rw [get_dummies, List.mem_append]
      right
      refine List.mem_flatMap.mpr ⟨c, hcf, ?_⟩
      simp only [hes]
      exact hx
    refine ⟨?_, ?_, ?_⟩
    · intro v hv
      refine hmem _ ?_
      rw [dummyColumns, List.mem_append]
      left
      exact List.mem_map.mpr ⟨v, hv, rfl⟩
    · refine hmem _ ?_
      rw [dummyColumns, List.mem_append]
      right
      exact List.mem_singleton.mpr rfl
    · intro hcmem
      have hno := get_dummies_not_object df c hcmem
      rw [hes] at hno
      simp [isObjectDtype] at hno

lemma decimalRepr_ne_nil (n : ℕ) : decimalRepr n ≠ [] := by
  rw [decimalRepr]
  rcases eq_or_ne n 0 with rfl | hn
  · simp
  · rw [if_neg hn]
    simp [Nat.digits_ne_nil_iff_ne_zero.mpr hn]

lemma decimalRepr_head_ne_zero (m : ℕ) (hm : m ≠ 0) (c : Char)
    (hc : (decimalRepr m).head? = some c) : c ≠ '0' := by
  rw [decimalRepr, if_neg hm, List.head?_reverse, List.getLast?_map] at hc
  have hnil : Nat.digits 10 m ≠ [] := Nat.digits_ne_nil_iff_ne_zero.mpr hm
  rw [List.getLast?_eq_getLast _ hnil] at hc
  have hceq : c = Nat.digitChar ((Nat.digits 10 m).getLast hnil) := by
    have := Option.some.injEq _ _ ▸ hc
    exact this.symm
  have hd0 : (Nat.digits 10 m).getLast hnil ≠ 0 := Nat.getLast_digit_ne_zero 10 hm
  have hd10 : (Nat.digits 10 m).getLast hnil < 10 :=
    Nat.digits_lt_base (by norm_num) (List.getLast_mem hnil)
  subst hceq
  have h1 : 1 ≤ (Nat.digits 10 m).getLast hnil := Nat.pos_of_ne_zero hd0
  interval_cases h : (Nat.digits 10 m).getLast hnil <;> decide

lemma decimalRepr_length_le (n : ℕ) (hn : n < 100) : (decimalRepr n).length ≤ 2 := by
  rw [decimalRepr]
  rcases eq_or_ne n 0 with rfl | h0
  · simp
  · rw [if_neg h0, List.length_reverse, List.length_map,
      Nat.digits_len 10 n (by norm_num) h0]
    have h100 : (100 : ℕ) = 10 ^ 2 := by norm_num
    have hlog : Nat.log 10 n < 2 := Nat.log_lt_of_lt_pow h0 (h100 ▸ hn)
    omega

lemma estabsKey_head_length (n : ℕ) (hn : n < 100) :
    (estabsKey n).data.head? = some '0' ∧ (estabsKey n).data.length = 3 := by
  have hlen : (decimalRepr n).length ≤ 2 := decimalRepr_length_le n hn
  have hdata : (estabsKey n).data = List.replicate (3 - (decimalRepr n).length) '0'
      ++ decimalRepr n := rfl
  constructor
  · rw [hdata]
    obtain ⟨k, hk⟩ : ∃ k, 3 - (decimalRepr n).length = k + 1 :=
      ⟨2 - (decimalRepr n).length, by omega⟩
    rw [hk, List.replicate_succ, List.cons_append]
    rfl
  · rw [hdata, List.length_append, List.length_replicate]
    omega

lemma pyStr_ne_estabsKey (m n : ℕ) (hn : n < 100) : pyStr m ≠ estabsKey n := by
  intro he
  have hd : decimalRepr m = (estabsKey n).data := congrArg String.data he
  obtain ⟨hhead, hlen3⟩ := estabsKey_head_length n hn
  rcases eq_or_ne m 0 with rfl | hm
  · have hl : (decimalRepr 0).length = 3 := by rw [hd]; exact hlen3
    simp [decimalRepr] at hl
  · have hh : (decimalRepr m).head? = some '0' := by rw [hd]; exact hhead
    exact decimalRepr_head_ne_zero m hm '0' hh rfl

/-- C9: merge-key normalization is inconsistent across the loaders: for a
zip prefix with numeric value below 100 the plain-str key produced by
`preprocess_lat_lons` differs from the zero-padded `str(int(x)).zfill(3)`
key used by the other two tables and the Lending Club frame, no lat-lon
row can match such a zero-padded key, and the left merge assigns that row
a null lat-lon part. -/
theorem lat_lon_key_mismatch {β γ : Type} (n : ℕ) (hn : n < 100)
    (raw : List (ℕ × γ)) (df : List (String × β)) (p : String × β)
    (hp : p ∈ df) (hkey : p.1 = estabsKey n) :
    latLonKey n ≠ estabsKey n
    ∧ lookupKey (preprocess_lat_lons raw) (estabsKey n) = none
    ∧ (p.1, p.2, (none : Option γ)) ∈ leftMerge df (preprocess_lat_lons raw) := by
  have hne : ∀ m, pyStr m ≠ estabsKey n := fun m => pyStr_ne_estabsKey m n hn
  refine ⟨hne n, ?_, ?_⟩
  · have hf : ((preprocess_lat_lons raw).find? fun q => q.1 == estabsKey n) = none := by
      refine List.find?_eq_none.mpr fun q hq => ?_
      obtain ⟨x, hx, rfl⟩ := List.mem_map.mp hq
      simp only [latLonKey, beq_iff_eq]
      exact fun hcon => hne x.1 hcon
    rw [lookupKey, hf]
    rfl
  · have hfil : (preprocess_lat_lons raw).filter (fun q => q.1 == p.1) = [] := by
      rw [List.filter_eq_nil_iff]
      intro q hq
      obtain ⟨x, hx, rfl⟩ := List.mem_map.mp hq
      rw [hkey]
      simp only [latLonKey, beq_iff_eq]
      exact fun hcon => hne x.1 hcon
    rw [leftMerge]
    refine List.mem_flatMap.mpr ⟨p, hp, ?_⟩
    rw [hfil]
    exact List.mem_singleton.mpr rfl

/-- Witness for `lat_lon_key_mismatch` at prefix 5. -/
theorem lat_lon_key_mismatch_witness : latLonKey 5 ≠ estabsKey 5 :=
  (lat_lon_key_mismatch 5 (by decide) ([(5, (0 : ℕ))]) ([(estabsKey 5, (0 : ℕ))])
    (estabsKey 5, (0 : ℕ)) (by simp) rfl).1
